import Mathlib

/-!
Verification of the date-normalization, filtering, KPI and chart-aggregation
logic of `excel_dashboard_dates_fixed_final.py` (a pandas/streamlit dashboard
script), via a shallow embedding of its dataframe operations.

Modelling conventions:
* a pandas `DataFrame` is a list of named, dtype-tagged columns
  (`Table := List Column`); a cell is `num q` (float64, modelled as `Rat`),
  `dat d` (datetime64, modelled as `Rat` days since 1970-01-01, so the Excel
  epoch 1899-12-30 is day `-25569`), `txt s` (object dtype) or `null`
  (NaN / NaT / None);
* `pd.to_datetime(col, origin="1899-12-30", unit="D", errors="coerce")` maps a
  numeric cell `v` to the datetime `excelEpoch + v` and NaN to NaT;
* `pd.to_datetime(col, errors="coerce")` on an object column is modelled with
  an arbitrary single-value parse function `parse : String → Option Rat`
  (`none` = unparseable, coerced to NaT);
* boolean row indexing `df[mask]` is a mask applied to every column.
-/

namespace Dashboard

/-- A scalar cell of a dataframe: float64 number, datetime64 value
(days since 1970-01-01, fractional part = time of day), object-dtype string,
or a missing value (NaN / NaT / None). -/
inductive Cell where
  | num (v : Rat)
  | dat (d : Rat)
  | txt (s : String)
  | null
deriving DecidableEq, Repr

/-- Column dtype tag, as tested by `pd.api.types.is_numeric_dtype`,
`pd.api.types.is_datetime64_any_dtype` and `dtype == object`. -/
inductive Kind where
  | numeric
  | date
  | text
deriving DecidableEq, Repr

/-- A named dataframe column: its dtype and its cells in row order. -/
structure Column where
  name : String
  kind : Kind
  vals : List Cell
deriving DecidableEq, Repr

/-- A dataframe: an ordered list of columns. -/
abbrev Table := List Column

/-- Python: `df[name]`: first column with the given name (`none` = KeyError). -/
def lookupCol (t : Table) (name : String) : Option Column :=
  t.find? (fun c => c.name = name)

/-- The cells of column `name`, `[]` when the column is absent. -/
def colVals (t : Table) (name : String) : List Cell :=
  match lookupCol t name with
  | some c => c.vals
  | none => []

/-- All columns hold the same number of rows (a dataframe invariant). -/
def Uniform (t : Table) (n : Nat) : Prop :=
  ∀ c ∈ t, c.vals.length = n

instance (t : Table) (n : Nat) : Decidable (Uniform t n) :=
  inferInstanceAs (Decidable (∀ c ∈ t, c.vals.length = n))

/-! ### Substring test: `"date" in col.lower()` -/

/-- Whether the first char list is an initial segment of the second. -/
def leadsChars : List Char → List Char → Bool
  | [], _ => true
  | _ :: _, [] => false
  | p :: ps, c :: cs => p = c && leadsChars ps cs

/-- Python `pat in s` on char lists: `pat` occurs contiguously in the
second list. -/
def hasSubChars (pat : List Char) : List Char → Bool
  | [] => pat.isEmpty
  | c :: cs => leadsChars pat (c :: cs) || hasSubChars pat cs

/-- Python `"date" in col.lower()` (`.lower()` modelled per character;
column names in the modelled spreadsheets are ASCII). -/
def nameHasDate (name : String) : Bool :=
  hasSubChars "date".toList (name.toList.map Char.toLower)

/-! ### fix_excel_dates -/

/-- The Excel serial-date epoch 1899-12-30, in days since 1970-01-01. -/
def excelEpoch : Rat := -25569

/-- Python: `pd.to_datetime(v, origin="1899-12-30", unit="D")` on a single number. -/
def serialToDate (v : Rat) : Rat := excelEpoch + v

/-- Python: `df[col].dropna()` restricted to the numeric values. -/
def numDropna (vals : List Cell) : List Rat :=
  vals.filterMap (fun v => match v with | Cell.num q => some q | _ => none)

/-- Python: `series.between(30000, 60000).all()`: every value in the inclusive range. -/
def allInSerialRange (l : List Rat) : Bool :=
  l.all (fun v => 30000 ≤ v && v ≤ 60000)

/-- One numeric cell under
`pd.to_datetime(·, origin="1899-12-30", unit="D", errors="coerce")`:
numbers become datetimes, NaN becomes NaT. -/
def serialCell : Cell → Cell
  | Cell.num v => Cell.dat (serialToDate v)
  | _ => Cell.null

/-- One object cell under `pd.to_datetime(·, errors="coerce")` with
single-value parser `parse`: parse failures are coerced to NaT (null). -/
def parseCell (parse : String → Option Rat) : Cell → Cell
  | Cell.txt s =>
      match parse s with
      | some d => Cell.dat d
      | none => Cell.null
  | _ => Cell.null

/-- The body of the `for col in df.columns` loop of `fix_excel_dates`,
acting on one column.  Numeric dtype: if the non-null values are non-empty
and all lie in `[30000, 60000]`, reinterpret the column as Excel serial
dates; object dtype with `"date" in col.lower()`: parse every value as a
date, coercing failures to null.  Anything else is untouched. -/
def fixColumn (parse : String → Option Rat) (c : Column) : Column :=
  match c.kind with
  | Kind.numeric =>
      let series := numDropna c.vals
      if !series.isEmpty && allInSerialRange series then
        { c with kind := Kind.date, vals := c.vals.map serialCell }
      else
        c
  | Kind.text =>
      if nameHasDate c.name then
        { c with kind := Kind.date, vals := c.vals.map (parseCell parse) }
      else
        c
  | Kind.date => c

/-- Python: `fix_excel_dates(df)`: the per-column date repair, applied to every
column (the value-level transformation computed by the Python function). -/
def fix_excel_dates (parse : String → Option Rat) (t : Table) : Table :=
  t.map (fixColumn parse)

/-! ### Call semantics of `fix_excel_dates`

The Python function receives the dataframe by reference and assigns
`df[col] = ...` on it, so the caller's object is updated in place, and the
returned value is that same reference.  We model the relevant slice of the
Python heap as a list of tables addressed by index. -/

/-- Python heap slice: dataframe objects addressed by index. -/
structure Heap where
  tables : List Table
deriving DecidableEq, Repr

/-- Calling `fix_excel_dates` on the dataframe at reference `r`: the object
at `r` is mutated in place by the `df[col] = ...` assignments, and the
function returns the same reference `r`. -/
def fixExcelDatesCall (parse : String → Option Rat) (h : Heap) (r : Nat) :
    Heap × Nat :=
  (⟨h.tables.set r (fix_excel_dates parse ((h.tables.getD r [])))⟩, r)

/-! ### Filters

The filter loop picks, per selected column, a constraint whose shape follows
the column's dtype: a numeric inclusive range (slider), a date inclusive
range (date picker, compared on calendar dates via `.dt.date`), or an
allowed-string set (multiselect over `dropna().unique()`, so the candidate
values are non-null strings).  Each constraint produces a boolean mask over
the current rows and `filtered_df = filtered_df[mask]` keeps the masked rows
of every column. -/

/-- One per-column filter constraint.  The text constraint carries plain
strings because the multiselect candidates come from `dropna().unique()`. -/
inductive FilterSpec where
  | numRange (lo hi : Rat)
  | dateRange (lo hi : Int)
  | txtSet (allowed : List String)
deriving DecidableEq, Repr

/-- The boolean mask entry for one cell:
`col.between(lo, hi)` for numeric, `col.dt.date.between(lo, hi)` for
datetime (`.dt.date` truncates to the calendar day, i.e. the floor of the
day number), `col.isin(allowed)` for text.  A null cell (NaN / NaT) makes
every one of these comparisons false. -/
def passes (sp : FilterSpec) (c : Cell) : Bool :=
  match sp, c with
  | FilterSpec.numRange lo hi, Cell.num v => lo ≤ v && v ≤ hi
  | FilterSpec.dateRange lo hi, Cell.dat d => lo ≤ ⌊d⌋ && ⌊d⌋ ≤ hi
  | FilterSpec.txtSet allowed, Cell.txt s => allowed.contains s
  | _, _ => false

/-- Python: `df[mask]` on one column's cells: keep the cells at `true` positions. -/
def applyMask : List Bool → List Cell → List Cell
  | true :: m, v :: vs => v :: applyMask m vs
  | false :: m, _ :: vs => applyMask m vs
  | _, _ => []

/-- One iteration of the filter loop: build the mask from column `name`
(a missing column leaves the frame unchanged; in the app `name` always
comes from `df.columns`) and keep the masked rows of every column. -/
def filterStep (t : Table) (f : String × FilterSpec) : Table :=
  match lookupCol t f.1 with
  | none => t
  | some c =>
      let m := c.vals.map (passes f.2)
      t.map (fun c' => { c' with vals := applyMask m c'.vals })

/-- The whole filter loop: the selected constraints applied in order, each
masking the frame produced by the previous one. -/
def applyFilters (t : Table) (specs : List (String × FilterSpec)) : Table :=
  specs.foldl filterStep t

/-- Every cell of the constrained column satisfies its constraint
(a table on which `filterStep` for that constraint is a no-op). -/
def AllPass (t : Table) (f : String × FilterSpec) : Prop :=
  ∀ v ∈ colVals t f.1, passes f.2 v = true

/-! ### KPIs -/

/-- Python: `df[col].sum()`: sum of the numeric values, NaN skipped. -/
def colSum (c : Column) : Rat :=
  (numDropna c.vals).sum

/-- Python: `df[col].count()`: number of non-null cells. -/
def colCount (c : Column) : Nat :=
  (c.vals.filter (fun v => v ≠ Cell.null)).length

/-- The accumulator of `df[col].mean()`: running total and count of the
non-NaN numeric values. -/
def meanFold : List Cell → Rat × Nat
  | [] => (0, 0)
  | Cell.num q :: vs => ((meanFold vs).1 + q, (meanFold vs).2 + 1)
  | _ :: vs => meanFold vs

/-- Python: `df[col].mean()`: total/count over the non-NaN values, NaN (`none`)
when there is no value at all. -/
def colMean (c : Column) : Option Rat :=
  if (meanFold c.vals).2 = 0 then none
  else some ((meanFold c.vals).1 / ((meanFold c.vals).2 : Rat))

/-- One row of `kpi_df`: the Sum / Average / Count triple for a column. -/
def kpis (c : Column) : Rat × Option Rat × Nat :=
  (colSum c, colMean c, colCount c)

/-- Cell well-formedness for a float64 column: every cell is a number or
NaN (KPI columns are taken from `select_dtypes(include="number")`). -/
def isNumOrNull : Cell → Bool
  | Cell.num _ => true
  | Cell.null => true
  | _ => false

/-! ### Charts -/

/-- The chart type selectbox. -/
inductive ChartKind where
  | line
  | bar
  | pie
  | combo
deriving DecidableEq, Repr

/-- A chart request: the X selectbox, the Y multiselect, the chart type. -/
structure ChartReq where
  x : String
  ys : List String
  kind : ChartKind
deriving DecidableEq, Repr

/-- Python: `series.value_counts()`: occurrence count of each distinct non-null
value, sorted by count descending (ties in an unspecified internal order). -/
def valueCounts (vals : List Cell) : List (Cell × Nat) :=
  let nn := vals.filter (fun v => v ≠ Cell.null)
  List.insertionSort (fun a b => b.2 ≤ a.2)
    (nn.dedup.map (fun k => (k, nn.count k)))

/-- The series data the chart branches compute, before handing it to the
renderer: one `value_counts` pie per y column, or an x-indexed frame of
y cells (`df_chart = plot_df.set_index(x_col)[y_cols]`). -/
inductive ChartOut where
  | noChart
  | pies (slices : List (String × List (Cell × Nat)))
  | xy (pts : List (Cell × List Cell))
deriving DecidableEq, Repr

/-- Key order for `sort_values(by=x_col)` on a datetime column: ascending
by date, with NaT sorted last (`na_position="last"`). -/
def xLE : Cell → Cell → Bool
  | Cell.dat a, Cell.dat b => a ≤ b
  | Cell.dat _, _ => true
  | _, Cell.dat _ => false
  | _, _ => true

/-- A "row" of the chart frame: the x cell paired with the y cells. -/
abbrev ChartRow := Cell × List Cell

/-- The rows of `plot_df` restricted to the x column and the y columns
(the only columns the chart branch reads), in table order. -/
def chartRows (xc : Column) (ycs : List Column) : List ChartRow :=
  (List.range xc.vals.length).map
    (fun i => (xc.vals.getD i Cell.null,
               ycs.map (fun c => c.vals.getD i Cell.null)))

/-- Python: `groupby(x)[ys].sum()` applied to one group: per y position, the sum of
the numeric y values of the rows in the group (NaN skipped; an all-NaN
group sums to 0, pandas' `min_count=0` default; in the app the y columns
are numeric, so every y cell is a number or NaN). -/
def groupSums (rows : List ChartRow) (m : Nat) : List Cell :=
  (List.range m).map
    (fun j =>
      Cell.num (numDropna (rows.map (fun r => r.2.getD j Cell.null))).sum)

/-- Python: `plot_df.sort_values(by=x_col)` then
`plot_df.groupby(x_col, as_index=False)[y_cols].sum()`: rows sorted
ascending by the date x, grouped by exact x value (NaT keys dropped by
groupby), each y column summed within the group; one output row per
distinct non-null x value, in ascending x order. -/
def sortAndGroup (rows : List ChartRow) (m : Nat) : List ChartRow :=
  let sorted := List.insertionSort (fun a b => xLE a.1 b.1) rows
  let keys := ((sorted.map Prod.fst).filter (fun k => k ≠ Cell.null)).dedup
  keys.map (fun k => (k, groupSums (rows.filter (fun r => r.1 = k)) m))

/-- The Pie branch's loop `for col in y_cols: filtered_df[col].value_counts()
.plot.pie(...)`: one value-counts slice set per y column, aborting with a
KeyError on the first missing column. -/
def pieCharts (t : Table) :
    List String → Except String (List (String × List (Cell × Nat)))
  | [] => Except.ok []
  | y :: ys =>
      match lookupCol t y with
      | none => Except.error ("KeyError: " ++ y)
      | some c =>
          match pieCharts t ys with
          | Except.ok rest => Except.ok ((y, valueCounts c.vals) :: rest)
          | Except.error e => Except.error e

/-- Column selection `df[y_cols]`: all the named columns, or a KeyError
when one is missing. -/
def getCols (t : Table) : List String → Except String (List Column)
  | [] => Except.ok []
  | y :: ys =>
      match lookupCol t y with
      | none => Except.error ("KeyError: " ++ y)
      | some c =>
          match getCols t ys with
          | Except.ok rest => Except.ok (c :: rest)
          | Except.error e => Except.error e

/-- The `Generate Chart` handler, up to the rendering calls.
Guarded by `y_cols` being non-empty.  Pie: one `value_counts` chart per
y column (the x column is never read).  Line / Bar / Combo: take the x and
y columns (a missing column raises a KeyError that the surrounding
`except Exception` turns into an error message, so no series is produced);
when the x column is datetime, sort by x and collapse duplicate dates by
summation; otherwise use the rows as they are. -/
def buildChart (t : Table) (req : ChartReq) : Except String ChartOut :=
  if req.ys.isEmpty then Except.ok ChartOut.noChart
  else
    match req.kind with
    | ChartKind.pie => (pieCharts t req.ys).map ChartOut.pies
    | _ =>
        match lookupCol t req.x with
        | none => Except.error ("KeyError: " ++ req.x)
        | some xc =>
            (getCols t req.ys).map
              (fun ycs =>
                let rows := chartRows xc ycs
                if xc.kind = Kind.date then
                  ChartOut.xy (sortAndGroup rows req.ys.length)
                else
                  ChartOut.xy rows)

/-- Modelled from the spec (nothing in the source implements this; it is
the spec's description of the Pie policy, kept for comparison with the
code's `buildChart`): group the rows by the x column's value and sum the
chosen y column within each group, one labeled slice per distinct x
value. -/
def pieSeriesClaimed (t : Table) (x y : String) : List (Cell × Rat) :=
  (colVals t x).dedup.filter (fun k => k ≠ Cell.null) |>.map
    (fun k =>
      (k, (numDropna ((List.range (colVals t x).length).filterMap
            (fun i =>
              if (colVals t x).getD i Cell.null = k then
                some ((colVals t y).getD i Cell.null)
              else none))).sum))

instance {ε α : Type} [DecidableEq ε] [DecidableEq α] :
    DecidableEq (Except ε α) := fun x y =>
  match x, y with
  | Except.ok a, Except.ok b =>
      match decEq a b with
      | isTrue h => isTrue (h ▸ rfl)
      | isFalse h => isFalse (fun hh => h (Except.ok.inj hh))
  | Except.ok _, Except.error _ => isFalse (fun hh => Except.noConfusion hh)
  | Except.error _, Except.ok _ => isFalse (fun hh => Except.noConfusion hh)
  | Except.error e, Except.error f =>
      match decEq e f with
      | isTrue h => isTrue (h ▸ rfl)
      | isFalse h => isFalse (fun hh => h (Except.error.inj hh))

/-- The y columns of a request, in request order (all present). -/
def ycols (t : Table) (ys : List String) : List Column :=
  ys.filterMap (lookupCol t)

/-! ### Concrete instances used to exercise the theorems -/

/-- A parser that accepts nothing (every value coerces to NaT). -/
def noParse : String → Option Rat := fun _ => none

/-- Example frame: text x column `X = [A, A, B]`, numeric `Y = [10, 5, 3]`. -/
def pieTable : Table :=
  [⟨"X", Kind.text, [Cell.txt "A", Cell.txt "A", Cell.txt "B"]⟩,
   ⟨"Y", Kind.numeric, [Cell.num 10, Cell.num 5, Cell.num 3]⟩]

/-- Example frame with a datetime x column holding a duplicated date
(day 19723 = 2024-01-01, day 19722 = 2023-12-31) and numeric y values. -/
def dateTable : Table :=
  [⟨"d", Kind.date, [Cell.dat 19723, Cell.dat 19722, Cell.dat 19723]⟩,
   ⟨"y", Kind.numeric, [Cell.num 4, Cell.num 6, Cell.num 6]⟩]

/-- Example frame with one Excel-serial numeric column. -/
def serialTable : Table :=
  [⟨"s", Kind.numeric, [Cell.num 45000, Cell.null]⟩]

/-- Example KPI column holding `[1, 2, 3, null]`. -/
def kpiColumn : Column :=
  ⟨"v", Kind.numeric, [Cell.num 1, Cell.num 2, Cell.num 3, Cell.null]⟩

/-!
## Theorems
-/

/-- How `fixColumn` acts on a numeric-dtype column, as an equation. -/
theorem fixColumn_numeric (parse : String → Option Rat) (name : String)
    (vals : List Cell) :
    fixColumn parse ⟨name, Kind.numeric, vals⟩ =
      if !(numDropna vals).isEmpty && allInSerialRange (numDropna vals) then
        ⟨name, Kind.date, vals.map serialCell⟩
      else ⟨name, Kind.numeric, vals⟩ := rfl

/-- How `fixColumn` acts on an object-dtype column, as an equation. -/
theorem fixColumn_text (parse : String → Option Rat) (name : String)
    (vals : List Cell) :
    fixColumn parse ⟨name, Kind.text, vals⟩ =
      if nameHasDate name then
        ⟨name, Kind.date, vals.map (parseCell parse)⟩
      else ⟨name, Kind.text, vals⟩ := rfl

/-- The map `fixColumn` never touches a datetime column. -/
theorem fixColumn_date (parse : String → Option Rat) (name : String)
    (vals : List Cell) :
    fixColumn parse ⟨name, Kind.date, vals⟩ = ⟨name, Kind.date, vals⟩ := rfl

/-- The map `fixColumn` is idempotent: a column it converts comes out with `date`
kind, which neither branch touches again, and a column it leaves alone is
left alone again. -/
theorem fixColumn_idem (parse : String → Option Rat) (c : Column) :
    fixColumn parse (fixColumn parse c) = fixColumn parse c := by
  rcases c with ⟨name, kind, vals⟩
  cases kind with
  | numeric =>
      rw [fixColumn_numeric]
      by_cases h :
          (!(numDropna vals).isEmpty
            && allInSerialRange (numDropna vals)) = true
      · rw [if_pos h, fixColumn_date]
      · rw [if_neg h, fixColumn_numeric, if_neg h]
  | date => rfl
  | text =>
      rw [fixColumn_text]
      by_cases h : nameHasDate name = true
      · rw [if_pos h, fixColumn_date]
      · rw [if_neg h, fixColumn_text, if_neg h]

/-- Claim C4: normalization is idempotent —
`fix_excel_dates (fix_excel_dates t) = fix_excel_dates t` for every table
and every single-value parser, and the serial-range heuristic never touches
a column that is already of Date kind (`fixColumn` is the identity on any
column of `date` kind, whatever its name and values). -/
theorem normalize_idem (parse : String → Option Rat) (t : Table) :
    fix_excel_dates parse (fix_excel_dates parse t) = fix_excel_dates parse t ∧
    ∀ (n : String) (vs : List Cell),
      fixColumn parse ⟨n, Kind.date, vs⟩ = ⟨n, Kind.date, vs⟩ := by
  constructor
  · unfold fix_excel_dates
    rw [List.map_map]
    apply List.map_congr_left
    intro c _
    exact fixColumn_idem parse c
  · intro n vs
    rfl

/-- The serial-range guard, read as a proposition. -/
theorem serialRange_guard_iff (vals : List Cell) :
    (!(numDropna vals).isEmpty && allInSerialRange (numDropna vals)) = true ↔
      numDropna vals ≠ [] ∧
        ∀ v ∈ numDropna vals, 30000 ≤ v ∧ v ≤ 60000 := by
  unfold allInSerialRange
  rw [Bool.and_eq_true, Bool.not_eq_true', List.isEmpty_eq_false_iff_exists_mem,
    List.all_eq_true]
  constructor
  · rintro ⟨⟨x, hx⟩, hall⟩
    refine ⟨?_, fun v hv => by simpa using hall v hv⟩
    intro h
    rw [h] at hx
    exact (List.not_mem_nil x) hx
  · rintro ⟨hne, hall⟩
    refine ⟨?_, fun v hv => by simpa using hall v hv⟩
    cases h : numDropna vals with
    | nil => exact absurd h hne
    | cons a l => exact ⟨a, List.mem_cons_self a l⟩

/-- Claim C5: a Numeric column is reinterpreted as Excel serial dates iff
its non-null numeric values form a non-empty set lying entirely in the
closed range `[30000, 60000]`; in that case every number `v` becomes the
datetime `1899-12-30 + v` days and every NaN becomes NaT, and otherwise the
column (kind and values) is completely unchanged. -/
theorem numeric_serial_heuristic (parse : String → Option Rat) (c : Column)
    (h : c.kind = Kind.numeric) :
    ((fixColumn parse c).kind = Kind.date ↔
      numDropna c.vals ≠ [] ∧
        ∀ v ∈ numDropna c.vals, 30000 ≤ v ∧ v ≤ 60000) ∧
    ((fixColumn parse c).kind = Kind.date →
      (fixColumn parse c).vals =
        c.vals.map (fun x =>
          match x with
          | Cell.num v => Cell.dat (serialToDate v)
          | _ => Cell.null)) ∧
    ((fixColumn parse c).kind ≠ Kind.date → fixColumn parse c = c) := by
  rcases c with ⟨name, kind, vals⟩
  obtain rfl : kind = Kind.numeric := h
  rw [fixColumn_numeric]
  by_cases hg :
      (!(numDropna vals).isEmpty && allInSerialRange (numDropna vals)) = true
  · rw [if_pos hg]
    refine ⟨⟨fun _ => (serialRange_guard_iff vals).mp hg, fun _ => rfl⟩,
            fun _ => ?_, fun hne => absurd rfl hne⟩
    show vals.map serialCell = _
    apply List.map_congr_left
    intro x _
    cases x <;> rfl
  · rw [if_neg hg]
    refine ⟨⟨fun hk => ?_,
             fun hcond => absurd ((serialRange_guard_iff vals).mpr hcond) hg⟩,
            fun hk => ?_, fun _ => rfl⟩
    · simp at hk
    · simp at hk

/-- Witness for C5: the column `s = [45000, NaN]` has numeric kind, its
non-null values all lie in `[30000, 60000]`, and the theorem instantiates;
in particular 45000 becomes the datetime day 19431 (2023-03-15). -/
theorem numeric_serial_heuristic_witness :
    (⟨"s", Kind.numeric, [Cell.num 45000, Cell.null]⟩ : Column).kind
        = Kind.numeric ∧
    (((fixColumn noParse ⟨"s", Kind.numeric,
          [Cell.num 45000, Cell.null]⟩).kind = Kind.date ↔
        numDropna [Cell.num 45000, Cell.null] ≠ [] ∧
          ∀ v ∈ numDropna [Cell.num 45000, Cell.null],
            30000 ≤ v ∧ v ≤ 60000) ∧
      ((fixColumn noParse ⟨"s", Kind.numeric,
          [Cell.num 45000, Cell.null]⟩).kind = Kind.date →
        (fixColumn noParse ⟨"s", Kind.numeric,
          [Cell.num 45000, Cell.null]⟩).vals =
          [Cell.num 45000, Cell.null].map (fun x =>
            match x with
            | Cell.num v => Cell.dat (serialToDate v)
            | _ => Cell.null)) ∧
      ((fixColumn noParse ⟨"s", Kind.numeric,
          [Cell.num 45000, Cell.null]⟩).kind ≠ Kind.date →
        fixColumn noParse ⟨"s", Kind.numeric,
          [Cell.num 45000, Cell.null]⟩ =
          ⟨"s", Kind.numeric, [Cell.num 45000, Cell.null]⟩)) :=
  ⟨rfl, numeric_serial_heuristic noParse
    ⟨"s", Kind.numeric, [Cell.num 45000, Cell.null]⟩ rfl⟩

/-- Claim C7: a Text column whose name contains the case-insensitive
substring "date" comes out of normalization with Date kind (whatever its
values, so also when every parse fails and all values end up null), its
name and row count unchanged, and cell-by-cell every string that parses
becomes that date while every string that fails to parse becomes null —
the failure is absorbed locally, never propagated. -/
theorem text_date_column_parse (parse : String → Option Rat) (c : Column)
    (hk : c.kind = Kind.text) (hn : nameHasDate c.name = true) :
    (fixColumn parse c).kind = Kind.date ∧
    (fixColumn parse c).name = c.name ∧
    (fixColumn parse c).vals.length = c.vals.length ∧
    ∀ (i : Nat) (s : String), c.vals[i]? = some (Cell.txt s) →
      (fixColumn parse c).vals[i]? =
        some (match parse s with
              | some d => Cell.dat d
              | none => Cell.null) := by
  rcases c with ⟨name, kind, vals⟩
  obtain rfl : kind = Kind.text := hk
  rw [fixColumn_text, if_pos hn]
  refine ⟨rfl, rfl, by simp, ?_⟩
  intro i s hi
  rw [List.getElem?_map (parseCell parse) vals i, hi]
  rfl

/-- Witness for C7: the column named "Start Date" (text kind, values
`["x"]`) with the nothing-parser: kind becomes Date and the unparseable
"x" becomes null. -/
theorem text_date_column_parse_witness :
    (⟨"Start Date", Kind.text, [Cell.txt "x"]⟩ : Column).kind = Kind.text ∧
    nameHasDate "Start Date" = true ∧
    ((fixColumn noParse ⟨"Start Date", Kind.text, [Cell.txt "x"]⟩).kind
        = Kind.date ∧
      (fixColumn noParse ⟨"Start Date", Kind.text,
          [Cell.txt "x"]⟩).name = "Start Date" ∧
      (fixColumn noParse ⟨"Start Date", Kind.text,
          [Cell.txt "x"]⟩).vals.length = [Cell.txt "x"].length ∧
      ∀ (i : Nat) (s : String),
        ([Cell.txt "x"] : List Cell)[i]? = some (Cell.txt s) →
          (fixColumn noParse ⟨"Start Date", Kind.text,
              [Cell.txt "x"]⟩).vals[i]? =
            some (match noParse s with
                  | some d => Cell.dat d
                  | none => Cell.null)) :=
  ⟨rfl, by decide,
    text_date_column_parse noParse
      ⟨"Start Date", Kind.text, [Cell.txt "x"]⟩ rfl (by decide)⟩

/-- Claim C2 counterexample: `fix_excel_dates` does not leave its input
unchanged.  Calling it on a heap holding the one-column serial table turns
the stored table's column into a datetime column: the object the caller
still references after the call differs from the table it held before the
call (the caller cannot retain the original). -/
theorem normalize_mutates_counterexample :
    (fixExcelDatesCall noParse ⟨[serialTable]⟩ 0).1.tables.getD 0 []
      ≠ serialTable := by decide

/-- Claim C2 amended: `fix_excel_dates` is observationally pure in its
value (same input table, same output table) but operates in place: the call
returns the very reference it was given, the table stored at that reference
afterwards is the normalized form of the table stored there before, and
every other reference is untouched.  The caller's retained reference
therefore sees the normalized table, not the original. -/
theorem normalize_in_place (parse : String → Option Rat) (h : Heap)
    (r : Nat) :
    (fixExcelDatesCall parse h r).2 = r ∧
    (fixExcelDatesCall parse h r).1.tables.getD r [] =
      fix_excel_dates parse (h.tables.getD r []) ∧
    ∀ r' : Nat, r' ≠ r →
      (fixExcelDatesCall parse h r).1.tables.getD r' [] =
        h.tables.getD r' [] := by
  refine ⟨rfl, ?_, ?_⟩
  · show (h.tables.set r _).getD r [] = _
    by_cases hr : r < h.tables.length
    · rw [List.getD_eq_getElem?_getD, List.getElem?_set_eq_of_lt _ hr]
      rfl
    · rw [List.set_eq_of_length_le (Nat.le_of_not_lt hr)]
      have : h.tables.getD r [] = [] := by
        rw [List.getD_eq_getElem?_getD, List.getElem?_eq_none
          (Nat.le_of_not_lt hr)]
        rfl
      rw [this]
      rfl
  · intro r' hr'
    show (h.tables.set r _).getD r' [] = _
    rw [List.getD_eq_getElem?_getD, List.getElem?_set_ne (Ne.symm hr'),
      ← List.getD_eq_getElem?_getD]

/-- Witness for the amended C2 at a concrete heap: reference 0 is returned,
slot 0 now holds the normalized serial table, and slot 1 is untouched. -/
theorem normalize_in_place_witness :
    (fixExcelDatesCall noParse ⟨[serialTable, pieTable]⟩ 0).2 = 0 ∧
    (fixExcelDatesCall noParse ⟨[serialTable, pieTable]⟩ 0).1.tables.getD 0 []
      = fix_excel_dates noParse
          ((⟨[serialTable, pieTable]⟩ : Heap).tables.getD 0 []) ∧
    (fixExcelDatesCall noParse ⟨[serialTable, pieTable]⟩ 0).1.tables.getD 1 []
      = (⟨[serialTable, pieTable]⟩ : Heap).tables.getD 1 [] :=
  ⟨(normalize_in_place noParse ⟨[serialTable, pieTable]⟩ 0).1,
   (normalize_in_place noParse ⟨[serialTable, pieTable]⟩ 0).2.1,
   (normalize_in_place noParse ⟨[serialTable, pieTable]⟩ 0).2.2 1
     (by decide)⟩

/-! ### Filter lemmas -/

/-- Masking selects a sublist of the cells. -/
theorem applyMask_sublist (m : List Bool) (vs : List Cell) :
    List.Sublist (applyMask m vs) vs := by
  induction m generalizing vs with
  | nil => exact List.nil_sublist vs
  | cons b m ih =>
      cases vs with
      | nil => cases b <;> exact List.nil_sublist []
      | cons v vs =>
          cases b with
          | true => exact List.Sublist.cons₂ v (ih vs)
          | false => exact List.Sublist.cons v (ih vs)

/-- A cell surviving its own column's mask satisfies the predicate the
mask was built from. -/
theorem mem_applyMask (p : Cell → Bool) (vs : List Cell) (v : Cell)
    (h : v ∈ applyMask (vs.map p) vs) : p v = true := by
  induction vs with
  | nil => cases h
  | cons a vs ih =>
      cases hpa : p a with
      | true =>
          rw [List.map_cons, hpa] at h
          cases List.mem_cons.mp h with
          | inl h => rw [h]; exact hpa
          | inr h => exact ih h
      | false =>
          rw [List.map_cons, hpa] at h
          exact ih h

/-- An all-true mask of the right length keeps every cell. -/
theorem applyMask_all_true (m : List Bool) (vs : List Cell)
    (hlen : m.length = vs.length) (h : ∀ b ∈ m, b = true) :
    applyMask m vs = vs := by
  induction m generalizing vs with
  | nil =>
      cases vs with
      | nil => rfl
      | cons v vs => cases hlen
  | cons b m ih =>
      cases vs with
      | nil => cases hlen
      | cons v vs =>
          have hb : b = true := h b (List.mem_cons_self b m)
          subst hb
          show v :: applyMask m vs = v :: vs
          rw [ih vs (Nat.succ_injective hlen)
            (fun b hb => h b (List.mem_cons_of_mem _ hb))]

/-- One mask shortens two equally long columns to the same length. -/
theorem applyMask_length (m : List Bool) (vs ws : List Cell)
    (h1 : m.length = vs.length) (h2 : m.length = ws.length) :
    (applyMask m vs).length = (applyMask m ws).length := by
  induction m generalizing vs ws with
  | nil =>
      cases vs with
      | nil => cases ws with
        | nil => rfl
        | cons w ws => cases h2
      | cons v vs => cases h1
  | cons b m ih =>
      cases vs with
      | nil => cases h1
      | cons v vs =>
          cases ws with
          | nil => cases h2
          | cons w ws =>
              cases b with
              | true =>
                  show (v :: applyMask m vs).length
                      = (w :: applyMask m ws).length
                  rw [List.length_cons, List.length_cons,
                    ih vs ws (Nat.succ_injective h1) (Nat.succ_injective h2)]
              | false =>
                  exact ih vs ws (Nat.succ_injective h1)
                    (Nat.succ_injective h2)

/-- Column lookup commutes with a name-preserving column map. -/
theorem lookupCol_map (t : Table) (g : Column → Column)
    (hg : ∀ c, (g c).name = c.name) (s : String) :
    lookupCol (t.map g) s = (lookupCol t s).map g := by
  induction t with
  | nil => rfl
  | cons c t ih =>
      show List.find? _ (g c :: t.map g) = _
      by_cases h : c.name = s
      · rw [List.find?_cons_of_pos _ (by simp [hg, h]),
          show lookupCol (c :: t) s = some c from
            List.find?_cons_of_pos _ (by simp [h])]
        rfl
      · rw [List.find?_cons_of_neg _ (by simp [hg, h]),
          show lookupCol (c :: t) s = lookupCol t s from
            List.find?_cons_of_neg _ (by simp [h])]
        exact ih

/-- The step `filterStep` on a missing column is a no-op. -/
theorem filterStep_of_lookup_none (t : Table) (f : String × FilterSpec)
    (h : lookupCol t f.1 = none) : filterStep t f = t := by
  unfold filterStep
  rw [h]

/-- The step `filterStep` on a present column applies that column's mask to every
column. -/
theorem filterStep_of_lookup_some (t : Table) (f : String × FilterSpec)
    (c : Column) (h : lookupCol t f.1 = some c) :
    filterStep t f =
      t.map (fun c' =>
        { c' with vals := applyMask (c.vals.map (passes f.2)) c'.vals }) := by
  unfold filterStep
  rw [h]

/-- After `filterStep`, the constrained column's surviving cells all
satisfy the constraint. -/
theorem allPass_filterStep_self (t : Table) (f : String × FilterSpec) :
    AllPass (filterStep t f) f := by
  cases h : lookupCol t f.1 with
  | none =>
      rw [filterStep_of_lookup_none t f h]
      intro v hv
      rw [colVals, h] at hv
      cases hv
  | some c =>
      rw [filterStep_of_lookup_some t f c h]
      intro v hv
      rw [colVals, lookupCol_map t
        (fun c' => { c' with
          vals := applyMask (c.vals.map (passes f.2)) c'.vals })
        (fun _ => rfl) f.1, h] at hv
      exact mem_applyMask (passes f.2) c.vals v hv

/-- The step `filterStep` only drops rows, so a constraint already satisfied
everywhere stays satisfied everywhere. -/
theorem allPass_filterStep_mono (t : Table) (f f' : String × FilterSpec)
    (h : AllPass t f) : AllPass (filterStep t f') f := by
  cases h' : lookupCol t f'.1 with
  | none => rw [filterStep_of_lookup_none t f' h']; exact h
  | some c =>
      rw [filterStep_of_lookup_some t f' c h']
      intro v hv
      rw [colVals, lookupCol_map t
        (fun c' => { c' with
          vals := applyMask (c.vals.map (passes f'.2)) c'.vals })
        (fun _ => rfl) f.1] at hv
      apply h
      rw [colVals]
      cases h0 : lookupCol t f.1 with
      | none => rw [h0] at hv; cases hv
      | some c0 =>
          rw [h0] at hv
          exact (applyMask_sublist _ c0.vals).subset hv

/-- The step `filterStep` keeps the columns equally long. -/
theorem uniform_filterStep (t : Table) (f : String × FilterSpec) (n : Nat)
    (hu : Uniform t n) : ∃ n', Uniform (filterStep t f) n' := by
  cases h : lookupCol t f.1 with
  | none => rw [filterStep_of_lookup_none t f h]; exact ⟨n, hu⟩
  | some c =>
      rw [filterStep_of_lookup_some t f c h]
      have hc : c ∈ t := List.mem_of_find?_eq_some h
      refine ⟨(applyMask (c.vals.map (passes f.2)) c.vals).length, ?_⟩
      intro c' hc'
      obtain ⟨c₀, hc₀, rfl⟩ := List.mem_map.mp hc'
      exact applyMask_length _ c₀.vals c.vals
        (by rw [List.length_map, hu c hc, hu c₀ hc₀])
        (by rw [List.length_map])

/-- A constraint already satisfied everywhere makes `filterStep` the
identity (the mask is all-true). -/
theorem filterStep_id_of_allPass (t : Table) (f : String × FilterSpec)
    (n : Nat) (hu : Uniform t n) (hp : AllPass t f) : filterStep t f = t := by
  cases h : lookupCol t f.1 with
  | none => exact filterStep_of_lookup_none t f h
  | some c =>
      rw [filterStep_of_lookup_some t f c h]
      have hc : c ∈ t := List.mem_of_find?_eq_some h
      have hm : ∀ b ∈ c.vals.map (passes f.2), b = true := by
        intro b hb
        obtain ⟨v, hv, rfl⟩ := List.mem_map.mp hb
        apply hp
        rw [colVals, h]
        exact hv
      have hid : ∀ c' ∈ t,
          ({ c' with
              vals := applyMask (c.vals.map (passes f.2)) c'.vals } : Column)
            = c' := by
        intro c' hc'
        rw [applyMask_all_true _ c'.vals
          (by rw [List.length_map, hu c hc, hu c' hc']) hm]
      calc t.map (fun c' =>
              { c' with
                vals := applyMask (c.vals.map (passes f.2)) c'.vals })
          = t.map id := List.map_congr_left hid
        _ = t := List.map_id t

/-- A constraint satisfied everywhere stays satisfied through the whole
filter loop. -/
theorem allPass_applyFilters_mono (t : Table) (f : String × FilterSpec)
    (ss : List (String × FilterSpec)) (h : AllPass t f) :
    AllPass (applyFilters t ss) f := by
  induction ss generalizing t with
  | nil => exact h
  | cons s ss ih => exact ih (filterStep t s) (allPass_filterStep_mono t f s h)

/-- After the filter loop, every applied constraint is satisfied by every
surviving cell of its column. -/
theorem allPass_applyFilters (t : Table) (specs : List (String × FilterSpec)) :
    ∀ f ∈ specs, AllPass (applyFilters t specs) f := by
  induction specs generalizing t with
  | nil => intro f hf; cases hf
  | cons s ss ih =>
      intro f hf
      show AllPass (applyFilters (filterStep t s) ss) f
      cases List.mem_cons.mp hf with
      | inl h =>
          subst h
          exact allPass_applyFilters_mono (filterStep t f) f ss
            (allPass_filterStep_self t f)
      | inr h => exact ih (filterStep t s) f h

/-- The filter loop keeps the columns equally long. -/
theorem uniform_applyFilters (t : Table) (specs : List (String × FilterSpec))
    (n : Nat) (hu : Uniform t n) :
    ∃ n', Uniform (applyFilters t specs) n' := by
  induction specs generalizing t n with
  | nil => exact ⟨n, hu⟩
  | cons s ss ih =>
      obtain ⟨n', hn'⟩ := uniform_filterStep t s n hu
      exact ih (filterStep t s) n' hn'

/-- The filter loop is the identity when every constraint is already
satisfied everywhere. -/
theorem applyFilters_id_of_allPass (t : Table)
    (specs : List (String × FilterSpec)) (n : Nat) (hu : Uniform t n)
    (hp : ∀ f ∈ specs, AllPass t f) : applyFilters t specs = t := by
  induction specs with
  | nil => rfl
  | cons s ss ih =>
      show applyFilters (filterStep t s) ss = t
      rw [filterStep_id_of_allPass t s n hu (hp s (List.mem_cons_self s ss))]
      exact ih (fun f hf => hp f (List.mem_cons_of_mem s hf))

/-- Claim C8: filtering is idempotent — running the filter loop a second
time with the same per-column constraints (inclusive numeric range,
inclusive calendar-date range, allowed text set, applied conjunctively in
sequence) returns the once-filtered table unchanged, for every table whose
columns are equally long. -/
theorem applyFilters_idem (t : Table) (specs : List (String × FilterSpec))
    (n : Nat) (hu : Uniform t n) :
    applyFilters (applyFilters t specs) specs = applyFilters t specs := by
  obtain ⟨n', hu'⟩ := uniform_applyFilters t specs n hu
  exact applyFilters_id_of_allPass (applyFilters t specs) specs n' hu'
    (allPass_applyFilters t specs)

/-- Witness for C8: the two-column date/numeric table, filtered on `y ∈
[5, 10]`, is unchanged by a second pass of the same filter. -/
theorem applyFilters_idem_witness :
    Uniform dateTable 3 ∧
    applyFilters (applyFilters dateTable [("y", FilterSpec.numRange 5 10)])
        [("y", FilterSpec.numRange 5 10)] =
      applyFilters dateTable [("y", FilterSpec.numRange 5 10)] :=
  ⟨by decide,
   applyFilters_idem dateTable [("y", FilterSpec.numRange 5 10)] 3 (by decide)⟩

/-- Claim C10: a null cell never passes a filter — the numeric and date
between-tests and the `isin` set test are all false on null (the allowed
set holds plain strings, mirroring `dropna().unique()`), so after the
filter loop the constrained column retains no null cell: the rows where it
was null are gone. -/
theorem null_rows_excluded (t : Table) (specs : List (String × FilterSpec))
    (f : String × FilterSpec) (hf : f ∈ specs) :
    passes f.2 Cell.null = false ∧
    Cell.null ∉ colVals (applyFilters t specs) f.1 := by
  have h1 : passes f.2 Cell.null = false := by
    rcases f with ⟨name, sp⟩
    cases sp <;> rfl
  refine ⟨h1, fun hmem => ?_⟩
  have h2 := allPass_applyFilters t specs f hf Cell.null hmem
  rw [h1] at h2
  exact Bool.false_ne_true h2

/-- Witness for C10: filtering the serial table on `s ∈ [0, 99999]` drops
its null cell. -/
theorem null_rows_excluded_witness :
    ("s", FilterSpec.numRange 0 99999) ∈
        [(("s" : String), FilterSpec.numRange 0 99999)] ∧
    (passes (FilterSpec.numRange 0 99999) Cell.null = false ∧
      Cell.null ∉ colVals
        (applyFilters serialTable [("s", FilterSpec.numRange 0 99999)]) "s") :=
  ⟨by decide,
   null_rows_excluded serialTable [("s", FilterSpec.numRange 0 99999)]
     ("s", FilterSpec.numRange 0 99999) (by decide)⟩

/-! ### KPI lemmas -/

/-- The mean accumulator computes the sum and the count of the non-NaN
numeric values. -/
theorem meanFold_eq (vs : List Cell) :
    meanFold vs = ((numDropna vs).sum, (numDropna vs).length) := by
  induction vs with
  | nil => rfl
  | cons v vs ih =>
      cases v with
      | num q =>
          show ((meanFold vs).1 + q, (meanFold vs).2 + 1) = _
          rw [ih]
          have h1 : numDropna (Cell.num q :: vs) = q :: numDropna vs := rfl
          rw [h1, List.sum_cons, List.length_cons,
            add_comm q (numDropna vs).sum]
      | dat d => exact ih
      | txt s => exact ih
      | null => exact ih

/-- The mean `colMean` in closed form. -/
theorem colMean_eq (c : Column) :
    colMean c =
      if (numDropna c.vals).length = 0 then none
      else some ((numDropna c.vals).sum / ((numDropna c.vals).length : Rat)) := by
  unfold colMean
  rw [meanFold_eq]

/-- On a numeric column (cells are numbers or NaN) the non-null count is
the count of numeric values. -/
theorem count_eq_numDropna_length (vs : List Cell)
    (hwf : vs.all isNumOrNull = true) :
    (vs.filter (fun v => v ≠ Cell.null)).length = (numDropna vs).length := by
  induction vs with
  | nil => rfl
  | cons v vs ih =>
      rw [List.all_cons, Bool.and_eq_true] at hwf
      have ih' := ih hwf.2
      cases v with
      | num q =>
          rw [show (Cell.num q :: vs).filter (fun v => v ≠ Cell.null)
              = Cell.num q :: vs.filter (fun v => v ≠ Cell.null)
            from List.filter_cons_of_pos (by simp)]
          have h1 : numDropna (Cell.num q :: vs) = q :: numDropna vs := rfl
          rw [h1, List.length_cons, List.length_cons, ih']
      | null =>
          rw [show (Cell.null :: vs).filter (fun v => v ≠ Cell.null)
              = vs.filter (fun v => v ≠ Cell.null)
            from List.filter_cons_of_neg (by simp)]
          exact ih'
      | dat d => exact absurd hwf.1 Bool.false_ne_true
      | txt s => exact absurd hwf.1 Bool.false_ne_true

/-- Claim C9: for a numeric column, Count is the number of non-null
values, Sum is the sum of those values, and Average is Sum divided by
Count (NaN — `none` — exactly when Count is zero). -/
theorem kpi_stats (c : Column) (hwf : c.vals.all isNumOrNull = true) :
    colCount c = (numDropna c.vals).length ∧
    colSum c = (numDropna c.vals).sum ∧
    (colCount c ≠ 0 → colMean c = some (colSum c / (colCount c : Rat))) ∧
    (colCount c = 0 → colMean c = none) := by
  have hcnt : colCount c = (numDropna c.vals).length :=
    count_eq_numDropna_length c.vals hwf
  refine ⟨hcnt, rfl, ?_, ?_⟩
  · intro h
    rw [hcnt] at h
    rw [colMean_eq, if_neg h, hcnt]
    rfl
  · intro h
    rw [hcnt] at h
    rw [colMean_eq, if_pos h]

/-- Witness for C9 at the spec's example `[1, 2, 3, null]`:
Sum = 6, Average = 2, Count = 3. -/
theorem kpi_stats_witness :
    kpiColumn.vals.all isNumOrNull = true ∧
    (colCount kpiColumn = (numDropna kpiColumn.vals).length ∧
      colSum kpiColumn = (numDropna kpiColumn.vals).sum ∧
      (colCount kpiColumn ≠ 0 →
        colMean kpiColumn =
          some (colSum kpiColumn / (colCount kpiColumn : Rat))) ∧
      (colCount kpiColumn = 0 → colMean kpiColumn = none)) ∧
    kpis kpiColumn = (6, some 2, 3) :=
  ⟨by decide, kpi_stats kpiColumn (by decide),
   by
     have h1 : colSum kpiColumn = 6 := by
       norm_num [colSum, kpiColumn, numDropna, List.filterMap_cons]
     have h2 : colMean kpiColumn = some 2 := by
       rw [colMean_eq]
       norm_num [kpiColumn, numDropna, List.filterMap_cons]
     have h3 : colCount kpiColumn = 3 := by decide
     show (colSum kpiColumn, colMean kpiColumn, colCount kpiColumn) = _
     rw [h1, h2, h3]⟩

/-! ### Chart lemmas -/

/-- When every requested y column exists, the Pie loop succeeds and
returns, per y column in order, the value-counts of that column. -/
theorem pieCharts_ok (t : Table) (ys : List String)
    (hall : ∀ y ∈ ys, (lookupCol t y).isSome) :
    pieCharts t ys =
      Except.ok (ys.map (fun y => (y, valueCounts (colVals t y)))) := by
  induction ys with
  | nil => rfl
  | cons y ys ih =>
      obtain ⟨c, hc⟩ :=
        Option.isSome_iff_exists.mp (hall y (List.mem_cons_self y ys))
      rw [pieCharts, hc, ih (fun z hz => hall z (List.mem_cons_of_mem y hz)),
        List.map_cons, colVals, hc]

/-- Membership in `value_counts`: the slices are exactly the distinct
non-null values, each with its occurrence count among the non-null cells. -/
theorem mem_valueCounts (vals : List Cell) (k : Cell) (n : Nat) :
    (k, n) ∈ valueCounts vals ↔
      (k ≠ Cell.null ∧ k ∈ vals ∧
        n = (vals.filter (fun v => v ≠ Cell.null)).count k) := by
  simp only [valueCounts]
  have hperm := List.perm_insertionSort (fun a b : Cell × Nat => b.2 ≤ a.2)
    (((vals.filter (fun v => v ≠ Cell.null)).dedup).map
      (fun k => (k, (vals.filter (fun v => v ≠ Cell.null)).count k)))
  rw [hperm.mem_iff, List.mem_map]
  constructor
  · rintro ⟨k', hk', hkn⟩
    obtain ⟨rfl, rfl⟩ := Prod.mk.injEq .. ▸ hkn
    have hmem := List.mem_dedup.mp hk'
    have := List.mem_filter.mp hmem
    refine ⟨by simpa using this.2, this.1, rfl⟩
  · rintro ⟨hnn, hmem, rfl⟩
    refine ⟨k, List.mem_dedup.mpr (List.mem_filter.mpr ⟨hmem, by simpa⟩), rfl⟩

/-- The slice labels of `value_counts` are pairwise distinct. -/
theorem valueCounts_nodup (vals : List Cell) :
    ((valueCounts vals).map Prod.fst).Nodup := by
  unfold valueCounts
  apply ((List.perm_insertionSort (fun a b => b.2 ≤ a.2) _).map
    Prod.fst).nodup_iff.mpr
  rw [List.map_map]
  have : (Prod.fst ∘ fun k => (k, ((vals.filter
      (fun v => v ≠ Cell.null)).count k)))
      = @id Cell := rfl
  rw [this, List.map_id]
  exact ((vals.filter (fun v => v ≠ Cell.null)).nodup_dedup)

/-- Claim C1 counterexample: on the table with text column `X = [A, A, B]`
and numeric column `Y = [10, 5, 3]`, a Pie request with x = X and
y = [Y] plots `value_counts` of Y — slice labels 10, 5, 3 with count 1
each — whereas grouping the rows by X and summing Y (what the claim
states) would give slice labels A and B (with sums 15 and 3). -/
theorem pie_counterexample :
    buildChart pieTable ⟨"X", ["Y"], ChartKind.pie⟩ =
      Except.ok (ChartOut.pies [("Y",
        [(Cell.num 10, 1), (Cell.num 5, 1), (Cell.num 3, 1)])]) ∧
    (pieSeriesClaimed pieTable "X" "Y").map Prod.fst
      = [Cell.txt "A", Cell.txt "B"] ∧
    ([(Cell.num 10, 1), (Cell.num 5, 1), (Cell.num 3, 1)]
        : List (Cell × Nat)).map Prod.fst
      ≠ (pieSeriesClaimed pieTable "X" "Y").map Prod.fst := by
  refine ⟨by decide, by decide, by decide⟩

/-- Claim C1 amended: for a Pie request the x column plays no part; for
each requested y column independently the code plots the value-counts of
that y column — one slice per distinct non-null value of the y column,
counting its occurrences — one independent pie per y column, in request
order. -/
theorem pie_value_counts (t : Table) (req : ChartReq)
    (hk : req.kind = ChartKind.pie) (hys : req.ys ≠ [])
    (hall : ∀ y ∈ req.ys, (lookupCol t y).isSome) :
    buildChart t req =
      Except.ok (ChartOut.pies
        (req.ys.map (fun y => (y, valueCounts (colVals t y))))) ∧
    (∀ vals (k : Cell) (n : Nat),
      (k, n) ∈ valueCounts vals ↔
        (k ≠ Cell.null ∧ k ∈ vals ∧
          n = (vals.filter (fun v => v ≠ Cell.null)).count k)) ∧
    ∀ vals, ((valueCounts vals).map Prod.fst).Nodup := by
  refine ⟨?_, mem_valueCounts, valueCounts_nodup⟩
  unfold buildChart
  rw [if_neg (by simpa using hys), hk, pieCharts_ok t req.ys hall]
  rfl

/-- Witness for the amended C1 at the concrete table: the Pie request from
`pieTable` with x = X, y = [Y]. -/
theorem pie_value_counts_witness :
    (⟨"X", ["Y"], ChartKind.pie⟩ : ChartReq).kind = ChartKind.pie ∧
    (⟨"X", ["Y"], ChartKind.pie⟩ : ChartReq).ys ≠ [] ∧
    (buildChart pieTable ⟨"X", ["Y"], ChartKind.pie⟩ =
      Except.ok (ChartOut.pies
        ((["Y"] : List String).map
          (fun y => (y, valueCounts (colVals pieTable y))))) ∧
    (∀ vals (k : Cell) (n : Nat),
      (k, n) ∈ valueCounts vals ↔
        (k ≠ Cell.null ∧ k ∈ vals ∧
          n = (vals.filter (fun v => v ≠ Cell.null)).count k)) ∧
    ∀ vals, ((valueCounts vals).map Prod.fst).Nodup) :=
  ⟨rfl, by decide,
   pie_value_counts pieTable ⟨"X", ["Y"], ChartKind.pie⟩ rfl (by decide)
     (by decide)⟩

/-- When every requested y column exists, `df[y_cols]` returns them in
request order. -/
theorem getCols_ok (t : Table) (ys : List String)
    (hall : ∀ y ∈ ys, (lookupCol t y).isSome) :
    getCols t ys = Except.ok (ycols t ys) := by
  induction ys with
  | nil => rfl
  | cons y ys ih =>
      obtain ⟨c, hc⟩ :=
        Option.isSome_iff_exists.mp (hall y (List.mem_cons_self y ys))
      rw [getCols, hc, ih (fun z hz => hall z (List.mem_cons_of_mem y hz))]
      show Except.ok (c :: ycols t ys)
          = Except.ok ((y :: ys).filterMap (lookupCol t))
      rw [List.filterMap_cons, hc]
      rfl

/-- A missing y column makes `df[y_cols]` fail with a KeyError. -/
theorem getCols_err (t : Table) (ys : List String)
    (hmiss : ∃ y ∈ ys, lookupCol t y = none) :
    ∃ e, getCols t ys = Except.error e := by
  induction ys with
  | nil =>
      obtain ⟨y, hy, _⟩ := hmiss
      cases hy
  | cons y ys ih =>
      cases hy0 : lookupCol t y with
      | none => exact ⟨"KeyError: " ++ y, by rw [getCols, hy0]⟩
      | some c =>
          obtain ⟨z, hz, hzn⟩ := hmiss
          have hz' : z ∈ ys := by
            cases List.mem_cons.mp hz with
            | inl h =>
                subst h
                rw [hy0] at hzn
                cases hzn
            | inr h => exact h
          obtain ⟨e, he⟩ := ih ⟨z, hz', hzn⟩
          refine ⟨e, ?_⟩
          rw [getCols, hy0, he]

/-- Claim C3 counterexample: the frame has no column "MISSING" and its
column X is of Text (non-numeric) kind, yet the Pie request with
x = "MISSING" and y = [X] succeeds and produces a slice set — no
`InvalidRequestError` (which the code nowhere defines), no failure. -/
theorem chart_validation_counterexample :
    lookupCol pieTable "MISSING" = none ∧
    lookupCol pieTable "X" =
      some ⟨"X", Kind.text, [Cell.txt "A", Cell.txt "A", Cell.txt "B"]⟩ ∧
    buildChart pieTable ⟨"MISSING", ["X"], ChartKind.pie⟩ =
      Except.ok (ChartOut.pies
        [("X", [(Cell.txt "A", 2), (Cell.txt "B", 1)])]) := by
  refine ⟨by decide, by decide, by decide⟩

/-- Claim C3 amended: for Line / Bar / Combo requests a missing x column
or a missing y column aborts the build with a generic KeyError caught by
the catch-all `except` handler (there is no dedicated
`InvalidRequestError`), producing no series.  The Pie branch, in
contrast, never reads the x column and never checks the y columns' kind:
with its y columns present it succeeds — even with a missing x column or
non-numeric y columns — building value-count slices. -/
theorem missing_column_fails (t : Table) (req : ChartReq)
    (hys : req.ys ≠ []) (hk : req.kind ≠ ChartKind.pie)
    (hmiss : lookupCol t req.x = none ∨
      ∃ y ∈ req.ys, lookupCol t y = none) :
    ∃ e, buildChart t req = Except.error e := by
  unfold buildChart
  rw [if_neg (by simpa using hys)]
  cases hkind : req.kind
  case pie => exact absurd hkind hk
  all_goals
    cases hx : lookupCol t req.x with
    | none => exact ⟨"KeyError: " ++ req.x, rfl⟩
    | some xc =>
        rcases hmiss with h | h
        · rw [h] at hx
          cases hx
        · obtain ⟨e, he⟩ := getCols_err t req.ys h
          exact ⟨e, by rw [he]; rfl⟩

/-- Witness for the amended C3: the Line request on `pieTable` whose x
column "NOPE" does not exist fails with an error. -/
theorem missing_column_fails_witness :
    ((⟨"NOPE", ["Y"], ChartKind.line⟩ : ChartReq).ys ≠ []) ∧
    ((⟨"NOPE", ["Y"], ChartKind.line⟩ : ChartReq).kind ≠ ChartKind.pie) ∧
    lookupCol pieTable "NOPE" = none ∧
    ∃ e, buildChart pieTable ⟨"NOPE", ["Y"], ChartKind.line⟩ =
      Except.error e :=
  ⟨by decide, by decide, by decide,
   missing_column_fails pieTable ⟨"NOPE", ["Y"], ChartKind.line⟩
     (by decide) (by decide) (Or.inl (by decide))⟩

/-- Reading a list back through `getD` over its index range is the
identity. -/
theorem map_getD_range (l : List Cell) (d : Cell) :
    (List.range l.length).map (fun i => l.getD i d) = l := by
  induction l with
  | nil => rfl
  | cons a l ih =>
      rw [List.length_cons, List.range_succ_eq_map, List.map_cons,
        List.map_map]
      show a :: (List.range l.length).map (fun i => l.getD i d) = a :: l
      rw [ih]

/-- The x components of the chart rows are exactly the x column's cells. -/
theorem chartRows_map_fst (xc : Column) (ycs : List Column) :
    (chartRows xc ycs).map Prod.fst = xc.vals := by
  unfold chartRows
  rw [List.map_map]
  exact map_getD_range xc.vals Cell.null

/-- The `sort_values` key order is total. -/
theorem xLE_total (a b : Cell) : xLE a b = true ∨ xLE b a = true := by
  cases a <;> cases b <;> simp [xLE]
  all_goals exact le_total _ _

/-- The `sort_values` key order is transitive. -/
theorem xLE_trans (a b c : Cell) (hab : xLE a b = true)
    (hbc : xLE b c = true) : xLE a c = true := by
  cases a <;> cases b <;> cases c <;> simp_all [xLE]
  all_goals exact le_trans (by assumption) (by assumption)

/-- What sorting-then-grouping produces: pairwise-distinct keys — the
distinct non-null x values — in ascending x order, each paired with the
per-position sums of the y cells of the rows sharing that exact x value. -/
theorem sortAndGroup_props (rows : List ChartRow) (m : Nat) :
    ((sortAndGroup rows m).map Prod.fst).Nodup ∧
    List.Pairwise (fun a b => xLE a b = true)
      ((sortAndGroup rows m).map Prod.fst) ∧
    (∀ k : Cell, k ∈ (sortAndGroup rows m).map Prod.fst ↔
      (k ≠ Cell.null ∧ k ∈ rows.map Prod.fst)) ∧
    ∀ p ∈ sortAndGroup rows m,
      p.2 = groupSums (rows.filter (fun r => r.1 = p.1)) m := by
  have hfst : (sortAndGroup rows m).map Prod.fst
      = (((List.insertionSort (fun a b => xLE a.1 b.1) rows).map
          Prod.fst).filter (fun k => k ≠ Cell.null)).dedup := by
    simp only [sortAndGroup]
    rw [List.map_map]
    have h0 : (Prod.fst ∘ fun k : Cell =>
        (k, groupSums (rows.filter (fun r => r.1 = k)) m)) = @id Cell := rfl
    rw [h0, List.map_id]
  have hpm : List.Perm
      ((List.insertionSort (fun a b => xLE a.1 b.1) rows).map Prod.fst)
      (rows.map Prod.fst) :=
    (List.perm_insertionSort (fun a b => xLE a.1 b.1) rows).map Prod.fst
  refine ⟨?_, ?_, ?_, ?_⟩
  · rw [hfst]
    exact List.nodup_dedup _
  · rw [hfst]
    have hsorted : List.Pairwise (fun a b : ChartRow => xLE a.1 b.1 = true)
        (List.insertionSort (fun a b => xLE a.1 b.1) rows) :=
      @List.sorted_insertionSort (Cell × List Cell)
        (fun a b => xLE a.1 b.1 = true) _
        ⟨fun a b => xLE_total a.1 b.1⟩
        ⟨fun a b c hab hbc => xLE_trans a.1 b.1 c.1 hab hbc⟩ rows
    have h2 : List.Pairwise (fun a b : Cell => xLE a b = true)
        ((List.insertionSort (fun a b => xLE a.1 b.1) rows).map Prod.fst) :=
      List.Pairwise.map Prod.fst (fun a b h => h) hsorted
    exact List.Pairwise.sublist (List.dedup_sublist _) (h2.filter _)
  · intro k
    rw [hfst, List.mem_dedup, List.mem_filter]
    constructor
    · rintro ⟨hmem, hnn⟩
      exact ⟨by simpa using hnn, hpm.mem_iff.mp hmem⟩
    · rintro ⟨hnn, hmem⟩
      exact ⟨hpm.mem_iff.mpr hmem, by simpa using hnn⟩
  · intro p hp
    simp only [sortAndGroup] at hp
    obtain ⟨k, hk, rfl⟩ := List.mem_map.mp hp
    rfl

/-- Claim C6: for a Line / Bar / Combo request whose x column is of Date
kind (all requested columns present), the chart series is the x-sorted,
group-by-x, per-group y-sum of the rows: exactly one point per distinct
non-null date, in ascending date order, each point carrying the sums of
the y columns over the rows with exactly that date (so duplicate dates
collapse into one aggregated point). -/
theorem date_x_aggregation (t : Table) (req : ChartReq)
    (hk : req.kind = ChartKind.line ∨ req.kind = ChartKind.bar ∨
      req.kind = ChartKind.combo)
    (hys : req.ys ≠ []) (xc : Column)
    (hx : lookupCol t req.x = some xc) (hxd : xc.kind = Kind.date)
    (hall : ∀ y ∈ req.ys, (lookupCol t y).isSome) :
    buildChart t req =
      Except.ok (ChartOut.xy
        (sortAndGroup (chartRows xc (ycols t req.ys)) req.ys.length)) ∧
    (∀ (rows : List ChartRow) (m : Nat),
      ((sortAndGroup rows m).map Prod.fst).Nodup ∧
      List.Pairwise (fun a b => xLE a b = true)
        ((sortAndGroup rows m).map Prod.fst) ∧
      (∀ k : Cell, k ∈ (sortAndGroup rows m).map Prod.fst ↔
        (k ≠ Cell.null ∧ k ∈ rows.map Prod.fst)) ∧
      ∀ p ∈ sortAndGroup rows m,
        p.2 = groupSums (rows.filter (fun r => r.1 = p.1)) m) ∧
    (chartRows xc (ycols t req.ys)).map Prod.fst = xc.vals := by
  refine ⟨?_, sortAndGroup_props, chartRows_map_fst xc (ycols t req.ys)⟩
  unfold buildChart
  rw [if_neg (by simpa using hys)]
  rcases hk with h | h | h <;>
    rw [h] <;>
    rw [show lookupCol t req.x = some xc from hx] <;>
    rw [getCols_ok t req.ys hall] <;>
    · simp [Except.map, hxd]

/-- Witness for C6 at `dateTable` (x = d of Date kind, y = [y]): the
request succeeds with the sorted grouped sums; concretely the duplicated
date 19723 (2024-01-01) yields the single key list
`[19722, 19723]`. -/
theorem date_x_aggregation_witness :
    ((⟨"d", ["y"], ChartKind.line⟩ : ChartReq).kind = ChartKind.line ∨
      (⟨"d", ["y"], ChartKind.line⟩ : ChartReq).kind = ChartKind.bar ∨
      (⟨"d", ["y"], ChartKind.line⟩ : ChartReq).kind = ChartKind.combo) ∧
    lookupCol dateTable "d" =
      some ⟨"d", Kind.date,
        [Cell.dat 19723, Cell.dat 19722, Cell.dat 19723]⟩ ∧
    (buildChart dateTable ⟨"d", ["y"], ChartKind.line⟩ =
      Except.ok (ChartOut.xy
        (sortAndGroup
          (chartRows
            ⟨"d", Kind.date, [Cell.dat 19723, Cell.dat 19722, Cell.dat 19723]⟩
            (ycols dateTable ["y"]))
          (["y"] : List String).length))) ∧
    (sortAndGroup
        (chartRows
          ⟨"d", Kind.date, [Cell.dat 19723, Cell.dat 19722, Cell.dat 19723]⟩
          (ycols dateTable ["y"])) 1).map Prod.fst
      = [Cell.dat 19722, Cell.dat 19723] :=
  ⟨Or.inl rfl, by decide,
   (date_x_aggregation dateTable ⟨"d", ["y"], ChartKind.line⟩ (Or.inl rfl)
     (by decide)
     ⟨"d", Kind.date, [Cell.dat 19723, Cell.dat 19722, Cell.dat 19723]⟩
     (by decide) rfl (by decide)).1,
   by decide⟩

end Dashboard
